import Mathlib

/-!
Verification of the `oblivious` repository (files `rsa.py` and `oblivious.py`):
a hand-made RSA engine and a 1-out-of-2 oblivious-transfer protocol built on it.
Every definition below is a shallow embedding of the corresponding Python
function; randomness (`rd.randint`, `rd.choice`) is modelled by passing the
drawn values explicitly, together with a predicate describing the set of
values the draw can produce.  Python's arbitrary-precision integers are
modelled by `Nat` (and by `Int` where the Python code subtracts).
-/

namespace Oblivious

/-! ## rsa.py -/

/-- Model of the recursive helper `get_dr` inside `miller_rabin`:
decompose `d = 2^r * d0` with `d0` odd.  The Python recursion
`get_dr(d // 2, r + 1)` terminates for every `d >= 1` (the only way the
source calls it); we use a structural fuel argument equal to the starting
`d`, which over-approximates the number of halvings needed. -/
def getDrAux : Nat → Nat → Nat → Nat × Nat
  | 0, d, r => (d, r)
  | fuel + 1, d, r => if d % 2 = 1 then (d, r) else getDrAux fuel (d / 2) (r + 1)

/-- Entry point matching the source call `get_dr(d, r)`, entered with fuel `d`. -/
def getDr (d r : Nat) : Nat × Nat := getDrAux d d r

/-- Squaring loop inside `test`: starting from `x`, do `r` rounds of
"if x in (1, n-1): return True; x = x*x % n", returning `False` when the
rounds are exhausted. -/
def mrLoop (n : Nat) : Nat → Nat → Bool
  | _, 0 => false
  | x, r + 1 => if x = 1 ∨ x = n - 1 then true else mrLoop n (x * x % n) r

/-- One witness round `test(n, d, r)` of `miller_rabin`, with the random
witness `a = rd.randint(2, n - 2)` passed explicitly. -/
def mrTest (n d r a : Nat) : Bool := mrLoop n (a ^ d % n) r

/-- Model of `miller_rabin(n, tol)` from `rsa.py`.  The list `ws` carries the
`tol // 2 + 1` random witnesses drawn by the Python code (one per call of
`test`); the special cases for `2`, `3`, `1` and even inputs are decided
before any witness is consulted, exactly as in the source. -/
def miller_rabin (ws : List Nat) (n : Nat) : Bool :=
  if n = 2 ∨ n = 3 then true
  else if n = 1 ∨ n % 2 = 0 then false
  else
    let dr := getDr (n - 1) 0
    ws.all fun a => mrTest n dr.1 dr.2 a

/-- Set of values `rd.randint(lo, hi)` can return: Python's `randint` is
inclusive at both endpoints. -/
def randintOk (lo hi c : Nat) : Prop := lo ≤ c ∧ c ≤ hi

instance (lo hi c : Nat) : Decidable (randintOk lo hi c) := by
  unfold randintOk; infer_instance

/-- Loop of `find_prime`: `p = rd.randint(lo, hi); while not miller_rabin(p):
p = rd.randint(lo, hi); return p`.  The current candidate is `p`, the
remaining random draws are `draws`; `test` abstracts `miller_rabin` together
with the witnesses it draws internally.  `none` means the draw stream was
exhausted before a candidate passed (the Python loop would keep drawing). -/
def findPrimeLoop (test : Nat → Bool) (p : Nat) : List Nat → Option Nat
  | [] => if test p then some p else none
  | d :: rest => if test p then some p else findPrimeLoop test d rest

/-- Model of `find_prime(bits)` from `rsa.py`, with the first draw and the stream of
further draws passed explicitly.  Every draw comes from
`rd.randint(2 ** bits, 2 ** (bits + 1))`. -/
def find_prime (test : Nat → Bool) (first : Nat) (draws : List Nat) : Option Nat :=
  findPrimeLoop test first draws

/-- Model of `RSA._carmichael(p, q) = abs((p-1)*(q-1)) // gcd(p-1, q-1)`; the operands
are natural numbers, so the `abs` is the identity. -/
def carmichael (p q : Nat) : Nat := (p - 1) * (q - 1) / Nat.gcd (p - 1) (q - 1)

/-- Downward search for the modular inverse: `invSearch a m (t+1)` returns `t`
if `a * t % m = 1` and keeps searching below otherwise.  When
`gcd(a, m) = 1` the inverse in `[0, m)` is unique, so the value found is
exactly the value Python's `pow(a, -1, m)` computes by extended Euclid. -/
def invSearch (a m : Nat) : Nat → Nat
  | 0 => 0
  | t + 1 => if a * t % m = 1 then t else invSearch a m t

/-- Model of Python's `pow(a, -1, m)`: the unique inverse of `a` in `[0, m)`
when `gcd(a, m) = 1` (for `m = 1` the result is `0`, as in Python). -/
def modInv (a m : Nat) : Nat := invSearch a m m

/-- The key material stored by `RSA.__init__` (the stored `psize` and
`keysize = n.bit_length()` are omitted: no claim mentions them). -/
structure RSAKey where
  p : Nat
  q : Nat
  n : Nat
  lam_n : Nat
  e : Nat
  d : Nat
deriving DecidableEq

/-- Model of `RSA.__init__(psize)` after the two random primes `p`, `q` have been
drawn by `find_prime(psize)`: computes `n`, `lam_n`, fixes `e = 65537`,
and either fails the `assert math.gcd(e, lam_n) == 1` (raising
`AssertionError("Must be co-prime!")`, modelled by `Except.error`) or
stores `d = pow(e, -1, lam_n)`. -/
def rsaInit (p q : Nat) : Except String RSAKey :=
  let n := p * q
  let lam_n := carmichael p q
  let e := 65537
  if Nat.gcd e lam_n = 1 then
    Except.ok { p := p, q := q, n := n, lam_n := lam_n, e := e, d := modInv e lam_n }
  else
    Except.error "Must be co-prime!"

/-- Model of `RSA.publickey()`. -/
def publickey (key : RSAKey) : Nat × Nat := (key.n, key.e)

/-- Model of `RSA.encrypt(message, publickey) = pow(message, e_pub, n_pub)`. -/
def encrypt (message : Nat) (pk : Nat × Nat) : Nat := message ^ pk.2 % pk.1

/-- Model of `RSA.decrypt(cypher) = pow(cypher, self.d, self.n)`. -/
def decrypt (key : RSAKey) (cypher : Nat) : Nat := cypher ^ key.d % key.n

/-- CPython's `hash` on a non-negative `int`: reduction modulo the Mersenne
prime `2^61 - 1` (64-bit build; `sys.hash_info.modulus`). -/
def pyHash (x : Nat) : Nat := x % (2 ^ 61 - 1)

/-- Model of `RSA.encrypt_and_sign(message, publickey)`:
`(encrypt(message, publickey), pow(hash(message), d, n))`. -/
def encrypt_and_sign (key : RSAKey) (message : Nat) (pk : Nat × Nat) : Nat × Nat :=
  (encrypt message pk, pyHash message ^ key.d % key.n)

/-- Model of `RSA.decrypt_and_verify(signed_message, publickey)`: decrypts the first
component and compares `hash(plain)` with `hash(pow(signature, e_pub, n_pub))`. -/
def decrypt_and_verify (key : RSAKey) (signed_message : Nat × Nat) (pk : Nat × Nat) :
    Bool × Nat :=
  let plain := decrypt key signed_message.1
  (decide (pyHash plain = pyHash (signed_message.2 ^ pk.2 % pk.1)), plain)

/-! ## oblivious.py -/

/-- Model of Python's three-argument `pow(base, exp, n)` with a possibly
negative `base` (as in `pow(self.v - self.x0, self.r.d, self.r.n)`): the
result is the canonical representative of `base ^ exp` modulo `n`, a natural
number in `[0, n)` for `n > 0`. -/
def pyPowMod (base : Int) (e : Nat) (n : Nat) : Nat := (base ^ e % (n : Int)).toNat

/-- Errors a protocol call can raise.  The source only ever raises
`AttributeError` (reading an attribute that no earlier step has set);
`protocolSequencingError` is the distinct error the specification asks for
and is never produced by the code. -/
inductive PyError where
  | attributeError (name : String)
  | protocolSequencingError
deriving DecidableEq

/-- The attributes `Alice.__init__` stores; `v`, `k0`, `k1` are only set by
`receive_encrypted_choice`, hence `Option`. -/
structure AliceState where
  r : RSAKey
  disclose : Bool
  m0 : Nat
  m1 : Nat
  x0 : Nat
  x1 : Nat
  v : Option Nat
  k0 : Option Nat
  k1 : Option Nat
deriving DecidableEq

/-- Model of `Alice.__init__(bits, disclose)`: builds `self.r = RSA(bits)` (the key is
passed in, already produced by `rsaInit` from the two drawn primes), fixes
the message pair `(1234, 5678)`, and stores the two nonce draws
`rd.randint(1000, 10000)`.  No value is validated or reduced. -/
def aliceInit (key : RSAKey) (disclose : Bool) (x0draw x1draw : Nat) : AliceState :=
  { r := key, disclose := disclose, m0 := 1234, m1 := 5678,
    x0 := x0draw, x1 := x1draw, v := none, k0 := none, k1 := none }

/-- Model of `Alice.send_publickey()`. -/
def alice_send_publickey (st : AliceState) : Nat × Nat := publickey st.r

/-- Model of `Alice.send_random_messages()`. -/
def alice_send_random_messages (st : AliceState) : Nat × Nat := (st.x0, st.x1)

/-- Model of `Alice.receive_encrypted_choice(choice)`: stores `v` and the trapdoor
values `k0 = pow(v - x0, d, n)`, `k1 = pow(v - x1, d, n)` (the subtraction
can go negative, hence the `Int` base). -/
def alice_receive_encrypted_choice (st : AliceState) (choice : Nat) : AliceState :=
  { st with
    v := some choice,
    k0 := some (pyPowMod ((choice : Int) - (st.x0 : Int)) st.r.d st.r.n),
    k1 := some (pyPowMod ((choice : Int) - (st.x1 : Int)) st.r.d st.r.n) }

/-- Model of `Alice.send_encrypted_messages()`: returns
`((m0 + k0) % n, (m1 + k1) % n)`.  If `receive_encrypted_choice` has not run,
the attribute read `self.k0` raises `AttributeError` (Python evaluates
`self.m0 + self.k0` first, so `k0` is the attribute reported). -/
def alice_send_encrypted_messages (st : AliceState) : Except PyError (Nat × Nat) :=
  match st.k0, st.k1 with
  | some k0, some k1 => Except.ok ((st.m0 + k0) % st.r.n, (st.m1 + k1) % st.r.n)
  | none, _ => Except.error (PyError.attributeError "k0")
  | some _, none => Except.error (PyError.attributeError "k1")

/-- Python tuple indexing `t[i]` for the two-element tuples of the protocol;
the source only indexes with `i` drawn from `rd.choice((0, 1))`. -/
def tupGet (t : Nat × Nat) (i : Nat) : Nat := if i = 0 then t.1 else t.2

/-- Model of `Bob.send_encrypted_choice()`: `(xs[b] + k ** e_pub) % n_pub`, where
`xs` came from `receive_random_messages`, `(n_pub, e_pub)` from
`receive_publickey`, and `b = rd.choice((0, 1))`,
`k = rd.randint(0, 2 ** bits)` from `choose_parameters`. -/
def bob_send_encrypted_choice (xs : Nat × Nat) (b k e_pub n_pub : Nat) : Nat :=
  (tupGet xs b + k ^ e_pub) % n_pub

/-- Model of `Bob.decrypt_choice(messages)`: `self.message = (messages[b] - k) % n_pub`
(again an `Int` subtraction reduced to a canonical `Nat` representative). -/
def bob_decrypt_choice (messages : Nat × Nat) (b k n_pub : Nat) : Nat :=
  (((tupGet messages b : Int) - (k : Int)) % (n_pub : Int)).toNat

/-! ## Number-theoretic core

`rsa.py` relies on the textbook-RSA identity: if `p ≠ q` are primes and
`e*d ≡ 1 (mod lcm(p-1, q-1))` then `m ^ (e*d) ≡ m (mod p*q)` for every `m`.
-/

/-- The `_carmichael` formula is exactly `Nat.lcm` of `p - 1` and `q - 1`. -/
theorem carmichael_eq_lcm (p q : Nat) : carmichael p q = Nat.lcm (p - 1) (q - 1) := rfl

/-- One prime factor at a time: if `r` is prime and `r - 1` divides `L`, then
`m ^ (L * t + 1) ≡ m (mod r)` for every `m` and `t`. -/
theorem pow_mul_add_one_modEq (r L t m : Nat) (hr : Nat.Prime r) (hdvd : (r - 1) ∣ L) :
    m ^ (L * t + 1) ≡ m [MOD r] := by
  obtain ⟨s, hs⟩ := hdvd
  by_cases hrm : r ∣ m
  · have h0 : m ≡ 0 [MOD r] := Nat.modEq_zero_iff_dvd.mpr hrm
    calc m ^ (L * t + 1) ≡ 0 ^ (L * t + 1) [MOD r] := h0.pow _
      _ = 0 := by simp
      _ ≡ m [MOD r] := h0.symm
  · have hco : Nat.Coprime m r := Nat.coprime_comm.mp (hr.coprime_iff_not_dvd.mpr hrm)
    have h1 : m ^ (r - 1) ≡ 1 [MOD r] := by
      have h := Nat.ModEq.pow_totient hco
      rwa [Nat.totient_prime hr] at h
    calc m ^ (L * t + 1)
        = (m ^ (r - 1)) ^ (s * t) * m := by
          rw [← pow_mul, ← pow_succ, hs, mul_assoc]
      _ ≡ 1 ^ (s * t) * m [MOD r] := (h1.pow _).mul_right m
      _ = m := by rw [one_pow, one_mul]

/-- Textbook RSA: for distinct primes `p`, `q` and any exponent `ed` with
`ed % lcm(p-1, q-1) = 1`, exponentiation by `ed` is the identity modulo
`p * q`. -/
theorem pow_ed_modEq (p q ed m : Nat) (hp : Nat.Prime p) (hq : Nat.Prime q)
    (hpq : p ≠ q) (hed : ed % Nat.lcm (p - 1) (q - 1) = 1) :
    m ^ ed ≡ m [MOD p * q] := by
  set L := Nat.lcm (p - 1) (q - 1) with hL
  have hsplit : ed = L * (ed / L) + 1 := by
    conv_lhs => rw [← Nat.div_add_mod ed L]
    rw [hed]
  have hco : Nat.Coprime p q := (Nat.coprime_primes hp hq).mpr hpq
  refine (Nat.modEq_and_modEq_iff_modEq_mul hco).mp ⟨?_, ?_⟩
  · rw [hsplit]
    exact pow_mul_add_one_modEq p L (ed / L) m hp (Nat.dvd_lcm_left _ _)
  · rw [hsplit]
    exact pow_mul_add_one_modEq q L (ed / L) m hq (Nat.dvd_lcm_right _ _)

/-- The same identity stated on canonical representatives below `p * q`. -/
theorem pow_ed_mod_eq (p q ed m : Nat) (hp : Nat.Prime p) (hq : Nat.Prime q)
    (hpq : p ≠ q) (hed : ed % Nat.lcm (p - 1) (q - 1) = 1) (hm : m < p * q) :
    m ^ ed % (p * q) = m := by
  have h := pow_ed_modEq p q ed m hp hq hpq hed
  unfold Nat.ModEq at h
  rw [h, Nat.mod_eq_of_lt hm]

/-- The search in `invSearch` finds a value satisfying the inverse equation as soon as one
exists below the fuel. -/
theorem invSearch_spec (a m : Nat) (fuel : Nat) (h : ∃ x < fuel, a * x % m = 1) :
    a * invSearch a m fuel % m = 1 := by
  induction fuel with
  | zero => obtain ⟨x, hx, _⟩ := h; omega
  | succ t ih =>
    unfold invSearch
    by_cases ht : a * t % m = 1
    · simp [ht]
    · simp only [ht, if_false]
      apply ih
      obtain ⟨x, hx, hx1⟩ := h
      have hxt : x ≠ t := fun he => ht (he ▸ hx1)
      exact ⟨x, by omega, hx1⟩

/-- Correctness of `modInv`, the model of Python's `pow(a, -1, m)`: when
`gcd(a, m) = 1` and `m > 1`, it returns a genuine modular inverse of `a`. -/
theorem modInv_correct (a m : Nat) (hm : 1 < m) (h : Nat.Coprime a m) :
    a * modInv a m % m = 1 := by
  obtain ⟨x, hx⟩ := Nat.exists_mul_emod_eq_one_of_coprime h hm
  apply invSearch_spec
  refine ⟨x % m, Nat.mod_lt _ (by omega), ?_⟩
  calc a * (x % m) % m = a % m * (x % m % m) % m := Nat.mul_mod _ _ _
    _ = a % m * (x % m) % m := by rw [Nat.mod_mod_of_dvd _ dvd_rfl]
    _ = a * x % m := (Nat.mul_mod _ _ _).symm
    _ = 1 := hx

/-- Alice's trapdoor step recovers Bob's blinding factor: applying
`pow(v - x, d, n)` to `v = (x + k ^ e) % n` yields `k` itself, for any
nonce `x`, whenever the key is a valid RSA key over distinct primes and
`k < n`. -/
theorem pyPowMod_recovers (p q e d k x : Nat) (hp : Nat.Prime p) (hq : Nat.Prime q)
    (hpq : p ≠ q) (hed : e * d % Nat.lcm (p - 1) (q - 1) = 1) (hk : k < p * q) :
    pyPowMod ((((x + k ^ e) % (p * q) : Nat) : Int) - (x : Int)) d (p * q) = k := by
  set n := p * q with hn
  have hn0 : (0 : Int) < (n : Int) := by
    have := hp.two_le
    have := hq.two_le
    positivity
  have h1 : (((x + k ^ e) % n : Nat) : Int) - (x : Int) ≡ (k : Int) ^ e [ZMOD (n : Int)] := by
    have hcast : (((x + k ^ e) % n : Nat) : Int) = ((x : Int) + (k : Int) ^ e) % (n : Int) := by
      push_cast [Int.natCast_mod]
      ring_nf
    rw [hcast]
    have h2 : ((x : Int) + (k : Int) ^ e) % (n : Int) ≡ (x : Int) + (k : Int) ^ e
        [ZMOD (n : Int)] := Int.emod_emod_of_dvd _ dvd_rfl
    have h3 := Int.ModEq.sub_right (x : Int) h2
    simpa using h3
  have h4 : ((((x + k ^ e) % n : Nat) : Int) - (x : Int)) ^ d ≡ (k : Int) ^ (e * d)
      [ZMOD (n : Int)] := by
    calc ((((x + k ^ e) % n : Nat) : Int) - (x : Int)) ^ d
        ≡ ((k : Int) ^ e) ^ d [ZMOD (n : Int)] := h1.pow d
      _ = (k : Int) ^ (e * d) := by rw [← pow_mul]
  have h5 : (k : Int) ^ (e * d) % (n : Int) = (k : Int) := by
    have hnat : k ^ (e * d) % n = k := pow_ed_mod_eq p q (e * d) k hp hq hpq hed hk
    calc (k : Int) ^ (e * d) % (n : Int) = ((k ^ (e * d) : Nat) : Int) % ((n : Nat) : Int) := by
          push_cast; ring_nf
      _ = ((k ^ (e * d) % n : Nat) : Int) := (Int.natCast_mod _ _).symm
      _ = (k : Int) := by rw [hnat]
  unfold pyPowMod
  rw [Int.ModEq] at h4
  rw [h4, h5]
  exact Int.toNat_natCast k

/-- Bob's unblinding step: `(((m + k) % n) - k) % n` recovers `m` exactly
when `m < n` (the subtraction is Python's, i.e. on integers, followed by a
canonical reduction). -/
theorem unblind_eq (n m k : Nat) (hm : m < n) :
    ((((m + k) % n : Nat) : Int) - (k : Int)) % ((n : Nat) : Int) = (m : Int) := by
  have hn0 : (0 : Int) < (n : Int) := by exact_mod_cast Nat.pos_of_ne_zero (by omega)
  have hcast : (((m + k) % n : Nat) : Int) = ((m : Int) + (k : Int)) % (n : Int) := by
    push_cast [Int.natCast_mod]; ring_nf
  rw [hcast]
  have h2 : ((m : Int) + (k : Int)) % (n : Int) - (k : Int) ≡ (m : Int) [ZMOD (n : Int)] := by
    have h3 : ((m : Int) + (k : Int)) % (n : Int) ≡ (m : Int) + (k : Int)
        [ZMOD (n : Int)] := Int.emod_emod_of_dvd _ dvd_rfl
    have h4 := Int.ModEq.sub_right (k : Int) h3
    simpa using h4
  rw [Int.ModEq] at h2
  rw [h2, Int.emod_eq_of_lt (by positivity) (by exact_mod_cast hm)]

/-- Inversion for a successful `RSA.__init__`: the gcd assertion passed and
the stored fields are the computed ones. -/
theorem rsaInit_ok_elim (p q : Nat) (key : RSAKey) (hkey : rsaInit p q = Except.ok key) :
    Nat.gcd 65537 (carmichael p q) = 1 ∧
    key = ⟨p, q, p * q, carmichael p q, 65537, modInv 65537 (carmichael p q)⟩ := by
  unfold rsaInit at hkey
  by_cases hg : Nat.gcd 65537 (carmichael p q) = 1
  · simp only [hg, if_pos, Except.ok.injEq] at hkey
    exact ⟨hg, hkey.symm⟩
  · simp [hg] at hkey

/-- For primes `p`, `q` that are not both `2`, the Carmichael value
`lcm(p-1, q-1)` exceeds `1`. -/
theorem carmichael_gt_one (p q : Nat) (hp : Nat.Prime p) (hq : Nat.Prime q)
    (hne : ¬(p = 2 ∧ q = 2)) : 1 < carmichael p q := by
  rw [carmichael_eq_lcm]
  have hp2 := hp.two_le
  have hq2 := hq.two_le
  have hpos : 0 < Nat.lcm (p - 1) (q - 1) :=
    Nat.pos_of_ne_zero (Nat.lcm_ne_zero (by omega) (by omega))
  have hcase : 2 ≤ p - 1 ∨ 2 ≤ q - 1 := by
    by_contra hcon
    push_neg at hcon
    exact hne ⟨by omega, by omega⟩
  rcases hcase with h | h
  · exact lt_of_lt_of_le h (Nat.le_of_dvd hpos (Nat.dvd_lcm_left _ _))
  · exact lt_of_lt_of_le h (Nat.le_of_dvd hpos (Nat.dvd_lcm_right _ _))

/-- For a key generated from distinct primes, the stored `d` is a working
private exponent: `e * d ≡ 1 (mod lcm(p-1, q-1))`. -/
theorem rsaKey_exponent (p q : Nat) (key : RSAKey) (hp : Nat.Prime p) (hq : Nat.Prime q)
    (hpq : p ≠ q) (hkey : rsaInit p q = Except.ok key) :
    key.e * key.d % Nat.lcm (p - 1) (q - 1) = 1 := by
  obtain ⟨hg, hkeyeq⟩ := rsaInit_ok_elim p q key hkey
  subst hkeyeq
  have hne : ¬(p = 2 ∧ q = 2) := fun h => hpq (h.1.trans h.2.symm)
  have hlam : 1 < carmichael p q := carmichael_gt_one p q hp hq hne
  have h := modInv_correct 65537 (carmichael p q) hlam hg
  rwa [carmichael_eq_lcm] at h

/-- Decryption inverts encryption on canonical representatives: the heart of
claims C1, C2 and C6. -/
theorem pow_pow_mod_eq (p q e d m : Nat) (hp : Nat.Prime p) (hq : Nat.Prime q)
    (hpq : p ≠ q) (hed : e * d % Nat.lcm (p - 1) (q - 1) = 1) (hm : m < p * q) :
    (m ^ e % (p * q)) ^ d % (p * q) = m := by
  rw [← Nat.pow_mod, ← pow_mul]
  exact pow_ed_mod_eq p q (e * d) m hp hq hpq hed hm

/-- One slot of the OT exchange, blinding and unblinding composed: Bob gets
back exactly the message in his chosen slot. -/
theorem ot_slot (p q e d k x m : Nat) (hp : Nat.Prime p) (hq : Nat.Prime q)
    (hpq : p ≠ q) (hed : e * d % Nat.lcm (p - 1) (q - 1) = 1)
    (hk : k < p * q) (hm : m < p * q) :
    ((((m + pyPowMod ((((x + k ^ e) % (p * q) : Nat) : Int) - (x : Int)) d (p * q)) % (p * q)
        : Nat) : Int) - (k : Int)) % ((p * q : Nat) : Int) = (m : Int) := by
  rw [pyPowMod_recovers p q e d k x hp hq hpq hed hk]
  exact unblind_eq (p * q) m k hm

/-! ## Claims -/

/-- C9: `miller_rabin` returns `True` on inputs `2` and `3`, `False` on `1`
and on every even input other than `2`, and in each of these cases the
answer is independent of the witness draws `ws` — no probabilistic round is
consulted. -/
theorem miller_rabin_special_cases (ws : List Nat) (n : Nat) :
    ((n = 2 ∨ n = 3) → miller_rabin ws n = true) ∧
    ((n = 1 ∨ (n % 2 = 0 ∧ n ≠ 2)) → miller_rabin ws n = false) := by
  constructor
  · rintro (rfl | rfl) <;> rfl
  · rintro (rfl | ⟨he, h2⟩)
    · rfl
    · have h3 : ¬(n = 2 ∨ n = 3) := by omega
      unfold miller_rabin
      simp [h3, he]

/-- Witness for C9 at the concrete inputs 2, 3, 1 and 8. -/
theorem miller_rabin_special_cases_witness :
    miller_rabin [5] 2 = true ∧ miller_rabin [5] 3 = true ∧
    miller_rabin [5] 1 = false ∧ miller_rabin [5] 8 = false :=
  ⟨(miller_rabin_special_cases [5] 2).1 (Or.inl rfl),
   (miller_rabin_special_cases [5] 3).1 (Or.inr rfl),
   (miller_rabin_special_cases [5] 1).2 (Or.inl rfl),
   (miller_rabin_special_cases [5] 8).2 (Or.inr ⟨rfl, by decide⟩)⟩

/-- C10: every `Alice`, whatever key (i.e. whatever `bits`) and whatever the
`randint(1000, 10000)` nonce draws, holds the fixed message pair
`m0 = 1234`, `m1 = 5678` and stores the two nonce draws — which lie in
`[1000, 10000]` — unchanged.  The messages and nonces are not parameters of
`Alice.__init__(bits, disclose)`; only the internal draws vary. -/
theorem alice_fixed_messages (key : RSAKey) (dscl : Bool) (x0 x1 : Nat)
    (h0 : randintOk 1000 10000 x0) (h1 : randintOk 1000 10000 x1) :
    (aliceInit key dscl x0 x1).m0 = 1234 ∧ (aliceInit key dscl x0 x1).m1 = 5678 ∧
    (aliceInit key dscl x0 x1).x0 = x0 ∧ (aliceInit key dscl x0 x1).x1 = x1 ∧
    1000 ≤ (aliceInit key dscl x0 x1).x0 ∧ (aliceInit key dscl x0 x1).x0 ≤ 10000 ∧
    1000 ≤ (aliceInit key dscl x0 x1).x1 ∧ (aliceInit key dscl x0 x1).x1 ≤ 10000 := by
  obtain ⟨h0a, h0b⟩ := h0
  obtain ⟨h1a, h1b⟩ := h1
  exact ⟨rfl, rfl, rfl, rfl, h0a, h0b, h1a, h1b⟩

/-- Witness for C10 at a concrete key and concrete nonce draws. -/
theorem alice_fixed_messages_witness :
    (aliceInit ⟨5, 7, 35, 12, 65537, 5⟩ false 1000 1001).m0 = 1234 ∧
    (aliceInit ⟨5, 7, 35, 12, 65537, 5⟩ false 1000 1001).m1 = 5678 ∧
    (aliceInit ⟨5, 7, 35, 12, 65537, 5⟩ false 1000 1001).x0 = 1000 ∧
    (aliceInit ⟨5, 7, 35, 12, 65537, 5⟩ false 1000 1001).x1 = 1001 ∧
    1000 ≤ (aliceInit ⟨5, 7, 35, 12, 65537, 5⟩ false 1000 1001).x0 ∧
    (aliceInit ⟨5, 7, 35, 12, 65537, 5⟩ false 1000 1001).x0 ≤ 10000 ∧
    1000 ≤ (aliceInit ⟨5, 7, 35, 12, 65537, 5⟩ false 1000 1001).x1 ∧
    (aliceInit ⟨5, 7, 35, 12, 65537, 5⟩ false 1000 1001).x1 ≤ 10000 :=
  alice_fixed_messages ⟨5, 7, 35, 12, 65537, 5⟩ false 1000 1001 (by decide) (by decide)

/-- C7, counterexample to the claim as stated: on a freshly constructed
`Alice` (the full `RSA(2)` key generation with drawn primes 2 and 3
succeeding), calling `send_encrypted_messages` before
`receive_encrypted_choice` raises the generic `AttributeError` for the unset
attribute `k0` — not a distinct protocol-sequencing error. -/
theorem alice_premature_send_cex :
    (rsaInit 2 3).map
        (fun key => alice_send_encrypted_messages (aliceInit key false 1000 1001)) =
      Except.ok (Except.error (PyError.attributeError "k0")) ∧
    PyError.attributeError "k0" ≠ PyError.protocolSequencingError :=
  ⟨rfl, by decide⟩

/-- C7 amended: calling `send_encrypted_messages` before
`receive_encrypted_choice` always fails fast — with the generic Python
`AttributeError` on the unset attribute `k0`, not with a distinct
protocol-sequencing error — and never silently returns a message pair. -/
theorem alice_premature_send (key : RSAKey) (dscl : Bool) (x0 x1 : Nat) :
    alice_send_encrypted_messages (aliceInit key dscl x0 x1) =
      Except.error (PyError.attributeError "k0") := rfl

/-- C8, counterexample to the claim as stated: with the `RSA(2)` key on the
drawn primes 5 and 7 (`n = 35`), construction of `Alice` succeeds even
though `m1 = 5678 ≥ 35` and both nonce draws are `≥ 35`; no "value out of
field" error is raised and nothing is reduced modulo `n`. -/
theorem alice_no_field_check_cex :
    (rsaInit 5 7).map (fun key => aliceInit key false 1000 1001) =
      Except.ok ⟨⟨5, 7, 35, 12, 65537, 5⟩, false, 1234, 5678, 1000, 1001,
        none, none, none⟩ ∧
    35 ≤ 5678 ∧ 35 ≤ 1000 ∧ 35 ≤ 1001 :=
  ⟨rfl, by decide, by decide, by decide⟩

/-- C8 amended: `Alice.__init__` performs no out-of-field validation at all:
construction always succeeds, and even when the fixed messages or the drawn
nonces are `≥ n` they are stored unchanged, never rejected and never reduced
modulo `n`. -/
theorem alice_no_field_check (key : RSAKey) (dscl : Bool) (x0 x1 : Nat)
    (hn : key.n ≤ 5678) (hx0 : key.n ≤ x0) :
    (aliceInit key dscl x0 x1).m1 = 5678 ∧
    (aliceInit key dscl x0 x1).x0 = x0 ∧
    key.n ≤ (aliceInit key dscl x0 x1).m1 ∧
    key.n ≤ (aliceInit key dscl x0 x1).x0 :=
  ⟨rfl, rfl, hn, hx0⟩

/-- Witness for C8 (amended) at the `n = 35` key with nonce draw 1000. -/
theorem alice_no_field_check_witness :
    (aliceInit ⟨5, 7, 35, 12, 65537, 5⟩ false 1000 1001).m1 = 5678 ∧
    (aliceInit ⟨5, 7, 35, 12, 65537, 5⟩ false 1000 1001).x0 = 1000 ∧
    (⟨5, 7, 35, 12, 65537, 5⟩ : RSAKey).n ≤ (aliceInit ⟨5, 7, 35, 12, 65537, 5⟩ false 1000 1001).m1 ∧
    (⟨5, 7, 35, 12, 65537, 5⟩ : RSAKey).n ≤ (aliceInit ⟨5, 7, 35, 12, 65537, 5⟩ false 1000 1001).x0 :=
  alice_no_field_check ⟨5, 7, 35, 12, 65537, 5⟩ false 1000 1001 (by decide) (by decide)

/-- C3, counterexample to the claim as stated: `RSA(0)` (and sometimes
`RSA(1)`) draws `p = q = 2`; the instance is constructed successfully
(`gcd(65537, lambda_n) = gcd(65537, 1) = 1`, so the assertion passes and
`d = pow(65537, -1, 1) = 0`), yet `(e * d) % lambda_n = 0 ≠ 1`. -/
theorem key_validity_cex :
    (rsaInit 2 2).map (fun key => key.e * key.d % key.lam_n) = Except.ok 0 ∧
    (rsaInit 2 2).map (fun key => Nat.gcd key.e key.lam_n) = Except.ok 1 ∧
    Nat.Prime 2 ∧ (0 : Nat) ≠ 1 :=
  ⟨rfl, rfl, by norm_num, by decide⟩

/-- C3 amended: for every successfully constructed RSA instance whose two
generated primes are not both `2` (equivalently, `lambda_n > 1`),
`(e * d) % lambda_n = 1` and `gcd(e, lambda_n) = 1`, with `e = 65537` and
`lambda_n = lcm(p-1, q-1)` as computed by `_carmichael`. -/
theorem key_validity (p q : Nat) (key : RSAKey) (hp : Nat.Prime p) (hq : Nat.Prime q)
    (hne : ¬(p = 2 ∧ q = 2)) (hkey : rsaInit p q = Except.ok key) :
    key.e * key.d % key.lam_n = 1 ∧ Nat.gcd key.e key.lam_n = 1 := by
  obtain ⟨hg, hkeyeq⟩ := rsaInit_ok_elim p q key hkey
  subst hkeyeq
  have hlam : 1 < carmichael p q := carmichael_gt_one p q hp hq hne
  exact ⟨modInv_correct 65537 (carmichael p q) hlam hg, hg⟩

/-- Witness for C3 (amended) at the drawn primes 2 and 3. -/
theorem key_validity_witness :
    (⟨2, 3, 6, 2, 65537, 1⟩ : RSAKey).e * (⟨2, 3, 6, 2, 65537, 1⟩ : RSAKey).d %
        (⟨2, 3, 6, 2, 65537, 1⟩ : RSAKey).lam_n = 1 ∧
    Nat.gcd (⟨2, 3, 6, 2, 65537, 1⟩ : RSAKey).e (⟨2, 3, 6, 2, 65537, 1⟩ : RSAKey).lam_n = 1 :=
  key_validity 2 3 ⟨2, 3, 6, 2, 65537, 1⟩ (by norm_num) (by norm_num)
    (by intro h; exact absurd h.2 (by decide)) rfl

/-- C4, counterexample to the claim as stated: 917519 and 524309 are primes
in the `find_prime(19)` draw range `[2^19, 2^20]` with
`gcd(65537, lcm(p-1, q-1)) = 65537 ≠ 1`; on these drawn primes
`RSA.__init__` does not retry with fresh primes — the
`assert math.gcd(e, lam_n) == 1` fails and the `AssertionError`
`"Must be co-prime!"` surfaces to the caller. -/
theorem keygen_no_retry_cex :
    Nat.Prime 917519 ∧ Nat.Prime 524309 ∧
    randintOk (2 ^ 19) (2 ^ 20) 917519 ∧ randintOk (2 ^ 19) (2 ^ 20) 524309 ∧
    Nat.gcd 65537 (carmichael 917519 524309) ≠ 1 ∧
    rsaInit 917519 524309 = Except.error "Must be co-prime!" :=
  ⟨by norm_num, by norm_num, by decide, by decide, by decide, rfl⟩

/-- C4 amended: when `gcd(e, lambda_n) ≠ 1` for the drawn primes, key
generation neither retries nor proceeds: the assertion fails and the
`AssertionError("Must be co-prime!")` is surfaced to the caller. -/
theorem keygen_gcd_failure_raises (p q : Nat)
    (h : Nat.gcd 65537 (carmichael p q) ≠ 1) :
    rsaInit p q = Except.error "Must be co-prime!" := by
  unfold rsaInit
  simp [h]

/-- Witness for C4 (amended) at a concrete pair with failing gcd. -/
theorem keygen_gcd_failure_raises_witness :
    rsaInit 65538 3 = Except.error "Must be co-prime!" :=
  keygen_gcd_failure_raises 65538 3 (by decide)

/-- The `find_prime` loop returns the first element of the draw stream that
passes the primality test. -/
theorem findPrimeLoop_eq_find (test : Nat → Bool) (p : Nat) (draws : List Nat) :
    findPrimeLoop test p draws = List.find? test (p :: draws) := by
  induction draws generalizing p with
  | nil =>
    by_cases h : test p <;> simp [findPrimeLoop, List.find?, h]
  | cons d rest ih =>
    by_cases h : test p <;> simp [findPrimeLoop, List.find?, h, ih]

/-- C5, counterexample to the claim as stated: for `bits = 4` the draw
`rd.randint(2^4, 2^5)` can return `2^5 = 32` — an even candidate lying
outside the half-open interval `[2^4, 2^5)` — and can also return the even
candidate `20` inside it; candidates are neither odd nor confined to the
half-open interval. -/
theorem find_prime_draws_cex :
    randintOk (2 ^ 4) (2 ^ (4 + 1)) 32 ∧ ¬(32 % 2 = 1 ∧ 32 < 2 ^ (4 + 1)) ∧
    randintOk (2 ^ 4) (2 ^ (4 + 1)) 20 ∧ 20 % 2 = 0 := by
  refine ⟨by decide, by decide, by decide, by decide⟩

/-- C5 amended: every candidate drawn by `find_prime(bits)` lies in the
closed interval `[2^bits, 2^(bits+1)]` (Python's `randint` includes both
endpoints) and may be even or odd; candidates are drawn repeatedly until one
passes the test, and the returned value is the first draw that passes,
hence itself lies in the closed interval. -/
theorem find_prime_draws (bits : Nat) (test : Nat → Bool) (first result : Nat)
    (draws : List Nat)
    (hfirst : randintOk (2 ^ bits) (2 ^ (bits + 1)) first)
    (hdraws : ∀ c ∈ draws, randintOk (2 ^ bits) (2 ^ (bits + 1)) c)
    (hres : find_prime test first draws = some result) :
    test result = true ∧ 2 ^ bits ≤ result ∧ result ≤ 2 ^ (bits + 1) ∧
    find_prime test first draws = List.find? test (first :: draws) := by
  have heq := findPrimeLoop_eq_find test first draws
  rw [find_prime, heq] at hres
  have hmem := List.mem_of_find?_eq_some hres
  have htest := List.find?_some hres
  have hbounds : randintOk (2 ^ bits) (2 ^ (bits + 1)) result := by
    rcases List.mem_cons.mp hmem with h | h
    · exact h ▸ hfirst
    · exact hdraws result h
  exact ⟨htest, hbounds.1, hbounds.2, heq⟩

/-- Witness for C5 (amended): `bits = 4`, first draw 16 (fails the test),
next draw 17 (passes), so `find_prime` returns 17. -/
theorem find_prime_draws_witness :
    miller_rabin [2] 17 = true ∧ 2 ^ 4 ≤ 17 ∧ 17 ≤ 2 ^ (4 + 1) ∧
    find_prime (miller_rabin [2]) 16 [17, 20] =
      List.find? (miller_rabin [2]) [16, 17, 20] :=
  find_prime_draws 4 (miller_rabin [2]) 16 17 [17, 20] (by decide) (by decide) (by decide)

/-- C2, counterexample to the claim as stated: `RSA(1)` can draw
`p = q = 3`; the instance constructs successfully (`lambda_n = 2`,
`gcd(65537, 2) = 1`, `d = 1`, `n = 9`), yet for the message `m = 3 < n` the
round-trip returns `3^65537 % 9 = 0 ≠ 3`. -/
theorem rsa_roundtrip_cex :
    (rsaInit 3 3).map (fun key => decrypt key (encrypt 3 (publickey key))) =
      Except.ok 0 ∧
    (0 : Nat) ≠ 3 ∧ Nat.Prime 3 ∧ (3 : Nat) < 9 := by
  refine ⟨?_, by decide, by norm_num, by decide⟩
  have h1 : rsaInit 3 3 = Except.ok ⟨3, 3, 9, 2, 65537, 1⟩ := rfl
  rw [h1]
  simp only [Except.map]
  norm_num [decrypt, encrypt, publickey]

/-- C2 amended: for every RSA instance whose two generated primes are
distinct and every `m < n`, `decrypt(encrypt(m, publickey())) = m`. -/
theorem rsa_roundtrip (p q m : Nat) (key : RSAKey) (hp : Nat.Prime p)
    (hq : Nat.Prime q) (hpq : p ≠ q) (hkey : rsaInit p q = Except.ok key)
    (hm : m < key.n) :
    decrypt key (encrypt m (publickey key)) = m := by
  have hed := rsaKey_exponent p q key hp hq hpq hkey
  obtain ⟨hg, hkeyeq⟩ := rsaInit_ok_elim p q key hkey
  subst hkeyeq
  exact pow_pow_mod_eq p q 65537 (modInv 65537 (carmichael p q)) m hp hq hpq hed hm

/-- Witness for C2 (amended) at the key on primes 3, 5 and message 7. -/
theorem rsa_roundtrip_witness :
    decrypt ⟨3, 5, 15, 4, 65537, 1⟩ (encrypt 7 (publickey ⟨3, 5, 15, 4, 65537, 1⟩)) = 7 :=
  rsa_roundtrip 3 5 7 ⟨3, 5, 15, 4, 65537, 1⟩ (by norm_num) (by norm_num)
    (by decide) rfl (by decide)

/-- C6, counterexample to the claim as stated: with the `p = q = 3` instance
(`n = 9`) and message `m = 3 < n`, `decrypt_and_verify` on the output of
`encrypt_and_sign` returns `(True, 0)`, not `(True, 3)` — the signature
verifies but the decrypted plaintext is wrong. -/
theorem sign_roundtrip_cex :
    (rsaInit 3 3).map (fun key =>
        decrypt_and_verify key (encrypt_and_sign key 3 (publickey key)) (publickey key)) =
      Except.ok (true, 0) ∧
    ((true, 0) : Bool × Nat) ≠ (true, 3) ∧ Nat.Prime 3 ∧ (3 : Nat) < 9 := by
  refine ⟨?_, by decide, by norm_num, by decide⟩
  have h1 : rsaInit 3 3 = Except.ok ⟨3, 3, 9, 2, 65537, 1⟩ := rfl
  rw [h1]
  simp only [Except.map]
  norm_num [decrypt_and_verify, encrypt_and_sign, decrypt, encrypt, publickey, pyHash]

/-- C6 amended: for every RSA instance whose two generated primes are
distinct and every `m < n`, `decrypt_and_verify` applied to
`encrypt_and_sign(m, publickey())`, with `publickey()` as the verification
key, returns `(True, m)`. -/
theorem sign_roundtrip (p q m : Nat) (key : RSAKey) (hp : Nat.Prime p)
    (hq : Nat.Prime q) (hpq : p ≠ q) (hkey : rsaInit p q = Except.ok key)
    (hm : m < key.n) :
    decrypt_and_verify key (encrypt_and_sign key m (publickey key)) (publickey key) =
      (true, m) := by
  have hed := rsaKey_exponent p q key hp hq hpq hkey
  obtain ⟨hg, hkeyeq⟩ := rsaInit_ok_elim p q key hkey
  subst hkeyeq
  have hm' : m < p * q := hm
  have hed' : 65537 * modInv 65537 (carmichael p q) % Nat.lcm (p - 1) (q - 1) = 1 := hed
  have hplain : (m ^ 65537 % (p * q)) ^ modInv 65537 (carmichael p q) % (p * q) = m :=
    pow_pow_mod_eq p q 65537 (modInv 65537 (carmichael p q)) m hp hq hpq hed' hm'
  have hhash_lt : pyHash m < p * q := lt_of_le_of_lt (Nat.mod_le m _) hm'
  have hde : modInv 65537 (carmichael p q) * 65537 % Nat.lcm (p - 1) (q - 1) = 1 := by
    rwa [mul_comm]
  have hsig : (pyHash m ^ modInv 65537 (carmichael p q) % (p * q)) ^ 65537 % (p * q) =
      pyHash m :=
    pow_pow_mod_eq p q (modInv 65537 (carmichael p q)) 65537 (pyHash m) hp hq hpq hde
      hhash_lt
  unfold decrypt_and_verify encrypt_and_sign decrypt encrypt publickey
  simp only []
  rw [hplain, hsig]
  have hidem : pyHash (pyHash m) = pyHash m := Nat.mod_mod_of_dvd m dvd_rfl
  rw [hidem]
  simp

/-- Witness for C6 (amended) at the key on primes 3, 5 and message 7. -/
theorem sign_roundtrip_witness :
    decrypt_and_verify ⟨3, 5, 15, 4, 65537, 1⟩
        (encrypt_and_sign ⟨3, 5, 15, 4, 65537, 1⟩ 7 (publickey ⟨3, 5, 15, 4, 65537, 1⟩))
        (publickey ⟨3, 5, 15, 4, 65537, 1⟩) = (true, 7) :=
  sign_roundtrip 3 5 7 ⟨3, 5, 15, 4, 65537, 1⟩ (by norm_num) (by norm_num)
    (by decide) rfl (by decide)

/-- C1 amended: the full five-step exchange — `send_publickey`,
`send_random_messages`, `choose_parameters` (modelled by the drawn `b`, `k`),
`send_encrypted_choice`/`receive_encrypted_choice`,
`send_encrypted_messages`/`decrypt_choice` — recovers exactly `m_b`
(`1234` for `b = 0`, `5678` for `b = 1`) for every choice `b ∈ {0,1}` and
every blinding factor `0 ≤ k ≤ 2^bits`, provided the two drawn primes are
distinct and `bits ≥ 7` (so that `n = p*q > 5678`, the larger hard-coded
message). -/
theorem ot_correctness (bits p q x0 x1 b k : Nat) (key : RSAKey) (dscl : Bool)
    (hp : Nat.Prime p) (hq : Nat.Prime q) (hpq : p ≠ q)
    (hbits : 7 ≤ bits) (hplo : 2 ^ bits ≤ p) (hqlo : 2 ^ bits ≤ q)
    (hkey : rsaInit p q = Except.ok key)
    (hx0 : randintOk 1000 10000 x0) (hx1 : randintOk 1000 10000 x1)
    (hb : b = 0 ∨ b = 1) (hk : k ≤ 2 ^ bits) :
    (alice_send_encrypted_messages
        (alice_receive_encrypted_choice (aliceInit key dscl x0 x1)
          (bob_send_encrypted_choice
            (alice_send_random_messages (aliceInit key dscl x0 x1)) b k
            (alice_send_publickey (aliceInit key dscl x0 x1)).2
            (alice_send_publickey (aliceInit key dscl x0 x1)).1))).map
      (fun messages =>
        bob_decrypt_choice messages b k
          (alice_send_publickey (aliceInit key dscl x0 x1)).1) =
    Except.ok (if b = 0 then 1234 else 5678) := by
  have hed := rsaKey_exponent p q key hp hq hpq hkey
  obtain ⟨hg, hkeyeq⟩ := rsaInit_ok_elim p q key hkey
  subst hkeyeq
  have hp2 := hp.two_le
  have hq2 := hq.two_le
  have h27 : (128 : Nat) ≤ 2 ^ bits := by
    calc (128 : Nat) = 2 ^ 7 := by norm_num
      _ ≤ 2 ^ bits := Nat.pow_le_pow_right (by norm_num) hbits
  have h16384 : (16384 : Nat) ≤ p * q := by
    calc (16384 : Nat) = 128 * 128 := by norm_num
      _ ≤ p * q := Nat.mul_le_mul (h27.trans hplo) (h27.trans hqlo)
  have hkpq : k < p * q := by
    have hkp : k ≤ p := hk.trans hplo
    nlinarith
  have hm0 : (1234 : Nat) < p * q := by omega
  have hm1 : (5678 : Nat) < p * q := by omega
  rcases hb with rfl | rfl
  · simp only [alice_send_publickey, alice_send_random_messages, publickey, aliceInit,
      alice_receive_encrypted_choice, alice_send_encrypted_messages,
      bob_send_encrypted_choice, bob_decrypt_choice, tupGet, Except.map,
      eq_self_iff_true, if_true]
    rw [ot_slot p q 65537 (modInv 65537 (carmichael p q)) k x0 1234 hp hq hpq hed hkpq hm0]
    simp
  · simp only [alice_send_publickey, alice_send_random_messages, publickey, aliceInit,
      alice_receive_encrypted_choice, alice_send_encrypted_messages,
      bob_send_encrypted_choice, bob_decrypt_choice, tupGet, Except.map,
      if_neg (show ¬(1 : Nat) = 0 by decide)]
    rw [ot_slot p q 65537 (modInv 65537 (carmichael p q)) k x1 5678 hp hq hpq hed hkpq hm1]
    simp

set_option maxRecDepth 4000 in
/-- Witness for C1 (amended): `bits = 7`, drawn primes 193 and 241, nonce
draws 1000 and 1001, choice `b = 1`, blinding factor `k = 2`; the run
resolves to `5678`. -/
theorem ot_correctness_witness :
    (alice_send_encrypted_messages
        (alice_receive_encrypted_choice
          (aliceInit ⟨193, 241, 46513, 960, 65537, 833⟩ false 1000 1001)
          (bob_send_encrypted_choice
            (alice_send_random_messages
              (aliceInit ⟨193, 241, 46513, 960, 65537, 833⟩ false 1000 1001)) 1 2
            (alice_send_publickey
              (aliceInit ⟨193, 241, 46513, 960, 65537, 833⟩ false 1000 1001)).2
            (alice_send_publickey
              (aliceInit ⟨193, 241, 46513, 960, 65537, 833⟩ false 1000 1001)).1))).map
      (fun messages =>
        bob_decrypt_choice messages 1 2
          (alice_send_publickey
            (aliceInit ⟨193, 241, 46513, 960, 65537, 833⟩ false 1000 1001)).1) =
    Except.ok 5678 :=
  ot_correctness 7 193 241 1000 1001 1 2 ⟨193, 241, 46513, 960, 65537, 833⟩ false
    (by norm_num) (by norm_num) (by decide) (by decide) (by decide) (by decide)
    (by rfl) (by decide) (by decide) (Or.inr rfl) (by decide)

/-- C1, counterexample to the claim as stated, in two legal runs.  First,
`bits = 2`: the drawn primes can be 5 and 7 (`n = 35 < 5678`); with nonce
draws 1000, 1001, choice `b = 1` and blinding factor `k = 3 ≤ 2^2`, the
five-step exchange resolves to `5678 % 35 = 8 ≠ 5678`.  Second, `bits = 7`
(so `n > 5678`): the two independent `find_prime(7)` calls can both draw the
prime 131; with `b = 1` and `k = 2 ≤ 2^7` the run resolves to
`12359 ≠ 5678`, because the trapdoor identity fails when `p = q`. -/
theorem ot_correctness_cex :
    rsaInit 5 7 = Except.ok ⟨5, 7, 35, 12, 65537, 5⟩ ∧
    Nat.Prime 5 ∧ Nat.Prime 7 ∧
    randintOk (2 ^ 2) (2 ^ 3) 5 ∧ randintOk (2 ^ 2) (2 ^ 3) 7 ∧ 3 ≤ 2 ^ 2 ∧
    (alice_send_encrypted_messages
        (alice_receive_encrypted_choice
          (aliceInit ⟨5, 7, 35, 12, 65537, 5⟩ false 1000 1001)
          (bob_send_encrypted_choice
            (alice_send_random_messages
              (aliceInit ⟨5, 7, 35, 12, 65537, 5⟩ false 1000 1001)) 1 3
            (alice_send_publickey
              (aliceInit ⟨5, 7, 35, 12, 65537, 5⟩ false 1000 1001)).2
            (alice_send_publickey
              (aliceInit ⟨5, 7, 35, 12, 65537, 5⟩ false 1000 1001)).1))).map
      (fun messages =>
        bob_decrypt_choice messages 1 3
          (alice_send_publickey
            (aliceInit ⟨5, 7, 35, 12, 65537, 5⟩ false 1000 1001)).1) =
      Except.ok 8 ∧
    (8 : Nat) ≠ 5678 ∧
    rsaInit 131 131 = Except.ok ⟨131, 131, 17161, 130, 65537, 23⟩ ∧
    Nat.Prime 131 ∧ randintOk (2 ^ 7) (2 ^ 8) 131 ∧ 2 ≤ 2 ^ 7 ∧
    (alice_send_encrypted_messages
        (alice_receive_encrypted_choice
          (aliceInit ⟨131, 131, 17161, 130, 65537, 23⟩ false 1000 1001)
          (bob_send_encrypted_choice
            (alice_send_random_messages
              (aliceInit ⟨131, 131, 17161, 130, 65537, 23⟩ false 1000 1001)) 1 2
            (alice_send_publickey
              (aliceInit ⟨131, 131, 17161, 130, 65537, 23⟩ false 1000 1001)).2
            (alice_send_publickey
              (aliceInit ⟨131, 131, 17161, 130, 65537, 23⟩ false 1000 1001)).1))).map
      (fun messages =>
        bob_decrypt_choice messages 1 2
          (alice_send_publickey
            (aliceInit ⟨131, 131, 17161, 130, 65537, 23⟩ false 1000 1001)).1) =
      Except.ok 12359 ∧
    (12359 : Nat) ≠ 5678 := by
  refine ⟨rfl, by norm_num, by norm_num, by decide, by decide, by decide, ?_,
    by decide, rfl, by norm_num, by decide, by decide, ?_, by decide⟩
  · simp only [alice_send_publickey, alice_send_random_messages, publickey, aliceInit,
      alice_receive_encrypted_choice, alice_send_encrypted_messages,
      bob_send_encrypted_choice, bob_decrypt_choice, tupGet, Except.map, pyPowMod,
      if_neg (show ¬(1 : Nat) = 0 by decide)]
    norm_num
    rfl
  · simp only [alice_send_publickey, alice_send_random_messages, publickey, aliceInit,
      alice_receive_encrypted_choice, alice_send_encrypted_messages,
      bob_send_encrypted_choice, bob_decrypt_choice, tupGet, Except.map, pyPowMod,
      if_neg (show ¬(1 : Nat) = 0 by decide)]
    norm_num
    rfl

end Oblivious
